import Mathlib

/-!
Verification of the pagination and base-path core of the spaceDB static-site
generator.  The repository contains two implementations of the pagination
planner (`utils.get_pagination_range` and `build_site.get_pagination_range`)
and one relative base-path computation (`build_site.compute_base_url`).
Python integers are modelled as `ℤ`, Python `range(a, b + 1)` as `intRange a b`,
the mixed `int | "..."` list entries as the `Marker` type, and filesystem paths
as lists of path components.
-/

/-- An entry of a pagination sequence: a 1-based page number or the `"..."`
gap placeholder. -/
inductive Marker where
  | page (n : ℤ)
  | ellipsis
deriving DecidableEq, Repr

/-- The integers `a, a+1, ..., b` in ascending order (empty when `b < a`);
models Python `range(a, b + 1)`. -/
def intRange (a b : ℤ) : List ℤ :=
  (List.range (b + 1 - a).toNat).map (fun i : ℕ => a + (i : ℤ))

namespace Utils

/-- Embedding of `get_pagination_range` from `src/utils.py`: the list
`range_pages` starts as `[1, '...']` with `start = current_page - delta`
when `current_page - delta > 2`, else empty with `start = 1`; `end` is
`current_page + delta` when that is `< total_pages - 1`, else `total_pages`;
the window `range(start, end + 1)` is appended, then `['...', total_pages]`
when `end < total_pages`. -/
def get_pagination_range (current_page total_pages delta : ℤ) : List Marker :=
  let lead : List Marker :=
    if current_page - delta > 2 then [Marker.page 1, Marker.ellipsis] else []
  let start : ℤ := if current_page - delta > 2 then current_page - delta else 1
  let stop : ℤ :=
    if current_page + delta < total_pages - 1 then current_page + delta
    else total_pages
  let range_pages := lead ++ (intRange start stop).map Marker.page
  if stop < total_pages then
    range_pages ++ [Marker.ellipsis, Marker.page total_pages]
  else range_pages

end Utils

namespace BuildSite

/-- Embedding of `get_pagination_range` from `src/build_site.py`:
returns `[1]` when `total <= 1`; otherwise `start = max(2, current - delta)`,
`end = min(total - 1, current + delta)`, a lead of `[1, '...']` when
`start > 2` else `[1]`, the window `range(start, end + 1)`, and a tail of
`['...', total]` when `end < total - 1`, else `[total]` when `end < total`,
else nothing. -/
def get_pagination_range (current total delta : ℤ) : List Marker :=
  if total ≤ 1 then [Marker.page 1]
  else
    let start : ℤ := max 2 (current - delta)
    let stop : ℤ := min (total - 1) (current + delta)
    let pages : List Marker :=
      if start > 2 then [Marker.page 1, Marker.ellipsis] else [Marker.page 1]
    let pages := pages ++ (intRange start stop).map Marker.page
    if stop < total - 1 then pages ++ [Marker.ellipsis, Marker.page total]
    else if stop < total then pages ++ [Marker.page total]
    else pages

/-- Result of `Path.relative_to`: `relative_to path root` strips `root` from
the front of `path` when `root` is a prefix of `path`, and is `none`
(the `ValueError` case) otherwise.  Paths are lists of components. -/
def relative_to : List String → List String → Option (List String)
  | p, [] => some p
  | [], _ :: _ => none
  | x :: p, r :: rs => if x = r then relative_to p rs else none

/-- Embedding of `compute_base_url` from `src/build_site.py`: on success of
`relative_to`, `depth = len(rel_path.parents) - 1` (which is the component
count of the relative path minus one) and the result is `"../" * depth` when
`depth > 0` else `""`; on `ValueError` the result is `""`. -/
def compute_base_url (output_dir output_path : List String) : String :=
  match relative_to output_path output_dir with
  | some rel_path =>
    let depth : ℤ := (rel_path.length : ℤ) - 1
    if depth > 0 then String.join (List.replicate depth.toNat "../") else ""
  | none => ""

end BuildSite

/-! ### Predicates on pagination sequences -/

/-- The page numbers of a pagination sequence, in order, ellipses dropped. -/
def pagesOf : List Marker → List ℤ
  | [] => []
  | Marker.page n :: rest => n :: pagesOf rest
  | Marker.ellipsis :: rest => pagesOf rest

/-- The integer list is non-decreasing left to right. -/
def nonDecrB : List ℤ → Bool
  | a :: b :: rest => decide (a ≤ b) && nonDecrB (b :: rest)
  | _ => true

/-- The integer list is strictly increasing left to right. -/
def strictIncrB : List ℤ → Bool
  | a :: b :: rest => decide (a < b) && strictIncrB (b :: rest)
  | _ => true

/-- No two adjacent ellipsis markers occur. -/
def noAdjEllipsisB : List Marker → Bool
  | Marker.ellipsis :: Marker.ellipsis :: _ => false
  | _ :: rest => noAdjEllipsisB rest
  | [] => true

/-- Every ellipsis flanked by page numbers `a` and `b` satisfies `a + k ≤ b`.
With `k = 3` the elided gap has at least two pages, so the ellipsis is never
redundant with a single page number; with `k = 2` the gap is merely
non-empty. -/
def gapsAtLeastB (k : ℤ) : List Marker → Bool
  | Marker.page a :: Marker.ellipsis :: Marker.page b :: rest =>
      decide (a + k ≤ b) && gapsAtLeastB k (Marker.page b :: rest)
  | _ :: rest => gapsAtLeastB k rest
  | [] => true

/-- The boundary policy claimed for `plan`'s output: numeric entries
non-decreasing, no adjacent ellipses, and no ellipsis standing for an empty
or single-page gap between its neighbouring numbers. -/
def boundaryPolicyB (out : List Marker) : Bool :=
  nonDecrB (pagesOf out) && noAdjEllipsisB out && gapsAtLeastB 3 out

/-- Every entry is an ellipsis or a page number in `[1, total]`. -/
def inBoundsB (total : ℤ) (out : List Marker) : Bool :=
  out.all fun m =>
    match m with
    | Marker.page n => decide (1 ≤ n ∧ n ≤ total)
    | Marker.ellipsis => true

/-- Transcription of claim C1's description of the output of `plan`:
`[1, ellipsis]` when `max 2 (current - delta) > 2` else `[1]`, then every
integer from `max 2 (current - delta)` to `min (total - 1) (current + delta)`
in ascending order, then `[ellipsis, total]` when the window end is
`< total - 1`, else `[total]` when it is `< total`, else nothing further. -/
def planSpecC1 (current total delta : ℤ) : List Marker :=
  (if max 2 (current - delta) > 2 then [Marker.page 1, Marker.ellipsis]
   else [Marker.page 1]) ++
  (intRange (max 2 (current - delta)) (min (total - 1) (current + delta))).map
    Marker.page ++
  (if min (total - 1) (current + delta) < total - 1 then
    [Marker.ellipsis, Marker.page total]
   else if min (total - 1) (current + delta) < total then [Marker.page total]
   else [])

/-! ### Lemmas about `intRange` -/

theorem intRange_eq_nil {a b : ℤ} (h : b < a) : intRange a b = [] := by
  unfold intRange
  have : (b + 1 - a).toNat = 0 := by omega
  simp [this]

theorem intRange_cons {a b : ℤ} (h : a ≤ b) :
    intRange a b = a :: intRange (a + 1) b := by
  unfold intRange
  have h1 : (b + 1 - a).toNat = (b + 1 - (a + 1)).toNat + 1 := by omega
  rw [h1, List.range_succ_eq_map]
  simp only [List.map_cons, List.map_map]
  congr 1
  · simp
  · apply List.map_congr_left
    intro i _
    simp only [Function.comp_apply, Nat.succ_eq_add_one]
    push_cast
    ring

theorem intRange_concat {a b : ℤ} (h : a ≤ b) :
    intRange a b = intRange a (b - 1) ++ [b] := by
  unfold intRange
  have h1 : (b + 1 - a).toNat = (b - 1 + 1 - a).toNat + 1 := by omega
  rw [h1, List.range_succ, List.map_append]
  simp only [List.map_cons, List.map_nil]
  congr 2
  omega

theorem mem_intRange {x a b : ℤ} : x ∈ intRange a b ↔ a ≤ x ∧ x ≤ b := by
  unfold intRange
  simp only [List.mem_map, List.mem_range]
  constructor
  · rintro ⟨i, hi, rfl⟩
    omega
  · rintro ⟨h1, h2⟩
    exact ⟨(x - a).toNat, by omega, by omega⟩

theorem intRange_ne_nil {a b : ℤ} (h : a ≤ b) : intRange a b ≠ [] := by
  rw [intRange_cons h]
  simp

theorem intRange_head {a b : ℤ} (h : a ≤ b) : (intRange a b).head? = some a := by
  rw [intRange_cons h]
  rfl

theorem intRange_getLast {a b : ℤ} (h : a ≤ b) :
    (intRange a b).getLast? = some b := by
  rw [intRange_concat h]
  exact List.getLast?_concat _

theorem pairwise_lt_intRange (a b : ℤ) :
    List.Pairwise (· < ·) (intRange a b) := by
  unfold intRange
  rw [List.pairwise_map]
  apply (List.pairwise_lt_range _).imp
  intro i j hij
  omega

theorem chain'_lt_intRange (a b : ℤ) :
    List.Chain' (· < ·) (intRange a b) :=
  (pairwise_lt_intRange a b).chain'

/-! ### Lemmas about the sequence predicates -/

theorem pagesOf_append (l₁ l₂ : List Marker) :
    pagesOf (l₁ ++ l₂) = pagesOf l₁ ++ pagesOf l₂ := by
  induction l₁ with
  | nil => rfl
  | cons m l ih => cases m <;> simp [pagesOf, ih]

theorem pagesOf_map_page (l : List ℤ) : pagesOf (l.map Marker.page) = l := by
  induction l with
  | nil => rfl
  | cons a l ih => simp [pagesOf, ih]

theorem strictIncrB_iff : ∀ l : List ℤ, strictIncrB l = true ↔ List.Chain' (· < ·) l
  | [] => by simp [strictIncrB]
  | [a] => by simp [strictIncrB]
  | a :: b :: l => by
    rw [strictIncrB]
    simp only [Bool.and_eq_true, decide_eq_true_eq, List.chain'_cons]
    rw [strictIncrB_iff (b :: l)]

theorem nonDecrB_iff : ∀ l : List ℤ, nonDecrB l = true ↔ List.Chain' (· ≤ ·) l
  | [] => by simp [nonDecrB]
  | [a] => by simp [nonDecrB]
  | a :: b :: l => by
    rw [nonDecrB]
    simp only [Bool.and_eq_true, decide_eq_true_eq, List.chain'_cons]
    rw [nonDecrB_iff (b :: l)]

theorem noAdjE_cons_page (a : ℤ) (l : List Marker) :
    noAdjEllipsisB (Marker.page a :: l) = noAdjEllipsisB l := rfl

theorem noAdjE_ell_page (b : ℤ) (l : List Marker) :
    noAdjEllipsisB (Marker.ellipsis :: Marker.page b :: l) =
      noAdjEllipsisB (Marker.page b :: l) := rfl

theorem noAdjE_pages (l : List ℤ) (rest : List Marker) :
    noAdjEllipsisB (l.map Marker.page ++ rest) = noAdjEllipsisB rest := by
  induction l with
  | nil => rfl
  | cons a l ih => rw [List.map_cons, List.cons_append, noAdjE_cons_page, ih]

theorem gaps_cons_pp (k a b : ℤ) (l : List Marker) :
    gapsAtLeastB k (Marker.page a :: Marker.page b :: l) =
      gapsAtLeastB k (Marker.page b :: l) := rfl

theorem gaps_cons_pep (k a b : ℤ) (l : List Marker) :
    gapsAtLeastB k (Marker.page a :: Marker.ellipsis :: Marker.page b :: l) =
      (decide (a + k ≤ b) && gapsAtLeastB k (Marker.page b :: l)) := rfl

theorem gaps_pages_pageTail (k : ℤ) : ∀ (l : List ℤ) (t : ℤ),
    gapsAtLeastB k (l.map Marker.page ++ [Marker.page t]) = true
  | [], _ => rfl
  | [a], t => rfl
  | a :: b :: l, t => by
    rw [List.map_cons, List.cons_append, List.map_cons, List.cons_append,
      gaps_cons_pp, ← List.cons_append, ← List.map_cons]
    exact gaps_pages_pageTail k (b :: l) t

theorem gaps_pages_ellTail (k : ℤ) : ∀ (l : List ℤ) (x t : ℤ),
    l.getLast? = some x →
    gapsAtLeastB k (l.map Marker.page ++ [Marker.ellipsis, Marker.page t]) =
      decide (x + k ≤ t)
  | [], x, t, h => by simp at h
  | [a], x, t, h => by
    simp only [List.getLast?_singleton, Option.some.injEq] at h
    subst h
    simp [gaps_cons_pep, gapsAtLeastB]
  | a :: b :: l, x, t, h => by
    rw [List.getLast?_cons_cons] at h
    rw [List.map_cons, List.cons_append, List.map_cons, List.cons_append,
      gaps_cons_pp, ← List.cons_append, ← List.map_cons]
    exact gaps_pages_ellTail k (b :: l) x t h

/-! ### Closed form of the two pagination implementations for `total ≥ 2` -/

theorem buildSite_shape (c t d : ℤ) (ht : 2 ≤ t) :
    BuildSite.get_pagination_range c t d =
      (if max 2 (c - d) > 2 then [Marker.page 1, Marker.ellipsis]
       else [Marker.page 1]) ++
      (intRange (max 2 (c - d)) (min (t - 1) (c + d))).map Marker.page ++
      (if min (t - 1) (c + d) < t - 1 then [Marker.ellipsis, Marker.page t]
       else [Marker.page t]) := by
  have h1 : ¬ t ≤ 1 := by omega
  simp only [BuildSite.get_pagination_range, h1, if_false]
  split_ifs with h2 h3 h4 <;> simp [List.append_assoc] <;> omega

theorem utils_shape (c t d : ℤ) (ht : 2 ≤ t) (hc1 : 1 ≤ c) (hct : c ≤ t)
    (hd : 0 ≤ d) :
    Utils.get_pagination_range c t d =
      (if max 2 (c - d) > 2 then [Marker.page 1, Marker.ellipsis]
       else [Marker.page 1]) ++
      (intRange (max 2 (c - d)) (min (t - 1) (c + d))).map Marker.page ++
      (if min (t - 1) (c + d) < t - 1 then [Marker.ellipsis, Marker.page t]
       else [Marker.page t]) := by
  simp only [Utils.get_pagination_range]
  by_cases h1 : c - d > 2 <;> by_cases h2 : c + d < t - 1
  · have e1 : max 2 (c - d) = c - d := by omega
    have e2 : min (t - 1) (c + d) = c + d := by omega
    have h3 : c + d < t := by omega
    simp [h1, h2, h3, e1, e2, List.append_assoc]
  · have e1 : max 2 (c - d) = c - d := by omega
    have e2 : min (t - 1) (c + d) = t - 1 := by omega
    have h3 : ¬ (t < t) := by omega
    have h4 : ¬ (t - 1 < t - 1) := by omega
    simp only [h1, h2, e1, e2, if_true, if_false, h3, h4]
    rw [intRange_concat (show c - d ≤ t by omega)]
    simp [List.append_assoc]
  · have e1 : max 2 (c - d) = 2 := by omega
    have e2 : min (t - 1) (c + d) = c + d := by omega
    have h3 : c + d < t := by omega
    have h4 : ¬ ((2:ℤ) > 2) := by omega
    simp only [h1, h2, e1, e2, if_true, if_false, h3, h4]
    rw [intRange_cons (show (1:ℤ) ≤ c + d by omega)]
    simp [List.append_assoc]
  · have e1 : max 2 (c - d) = 2 := by omega
    have e2 : min (t - 1) (c + d) = t - 1 := by omega
    have h3 : ¬ (t < t) := by omega
    have h4 : ¬ (t - 1 < t - 1) := by omega
    have h5 : ¬ ((2:ℤ) > 2) := by omega
    simp only [h1, h2, e1, e2, if_true, if_false, h3, h4, h5]
    rw [intRange_cons (show (1:ℤ) ≤ t by omega),
      intRange_concat (show (1:ℤ) + 1 ≤ t by omega)]
    simp [List.append_assoc]

/-! ### Structural properties of the build_site planner output -/

theorem pagesOf_build (c t d : ℤ) (ht : 2 ≤ t) :
    pagesOf (BuildSite.get_pagination_range c t d) =
      1 :: (intRange (max 2 (c - d)) (min (t - 1) (c + d)) ++ [t]) := by
  rw [buildSite_shape c t d ht]
  split_ifs <;> simp [pagesOf_append, pagesOf_map_page, pagesOf]

theorem chain'_lt_pages_build (c t d : ℤ) (ht : 2 ≤ t) (hc1 : 1 ≤ c)
    (hct : c ≤ t) (hd : 0 ≤ d) :
    List.Chain' (· < ·) (pagesOf (BuildSite.get_pagination_range c t d)) := by
  rw [pagesOf_build c t d ht]
  rcases le_or_lt (max 2 (c - d)) (min (t - 1) (c + d)) with hse | hse
  · rw [List.chain'_cons']
    constructor
    · intro y hy
      rw [intRange_cons hse, List.cons_append, List.head?_cons,
        Option.mem_some_iff] at hy
      omega
    · rw [List.chain'_append]
      refine ⟨chain'_lt_intRange _ _, List.chain'_singleton _, ?_⟩
      intro x hx y hy
      rw [intRange_getLast hse, Option.mem_some_iff] at hx
      rw [List.head?_cons, Option.mem_some_iff] at hy
      omega
  · rw [intRange_eq_nil hse, List.nil_append]
    exact List.chain'_pair.mpr (by omega)

theorem noAdjE_build (c t d : ℤ) (ht : 2 ≤ t) (hc1 : 1 ≤ c) (hct : c ≤ t)
    (hd : 0 ≤ d) :
    noAdjEllipsisB (BuildSite.get_pagination_range c t d) = true := by
  rw [buildSite_shape c t d ht]
  set s := max 2 (c - d) with hs
  set e := min (t - 1) (c + d) with he
  by_cases hlead : s > 2
  · rcases le_or_lt s e with hse | hse
    · rw [if_pos hlead, intRange_cons hse]
      simp only [List.map_cons, List.cons_append, List.append_assoc,
        List.nil_append]
      rw [noAdjE_cons_page, noAdjE_ell_page, noAdjE_cons_page, noAdjE_pages]
      split_ifs <;> rfl
    · have htail : ¬ (e < t - 1) := by omega
      rw [if_pos hlead, if_neg htail, intRange_eq_nil hse]
      rfl
  · rw [if_neg hlead, List.singleton_append, ← List.map_cons, noAdjE_pages]
    split_ifs <;> rfl

theorem gaps2_build (c t d : ℤ) (ht : 2 ≤ t) (hc1 : 1 ≤ c) (hct : c ≤ t)
    (hd : 0 ≤ d) :
    gapsAtLeastB 2 (BuildSite.get_pagination_range c t d) = true := by
  rw [buildSite_shape c t d ht]
  set s := max 2 (c - d) with hs
  set e := min (t - 1) (c + d) with he
  by_cases hlead : s > 2
  · rcases le_or_lt s e with hse | hse
    · rw [if_pos hlead, intRange_cons hse]
      simp only [List.map_cons, List.cons_append, List.append_assoc,
        List.nil_append]
      rw [gaps_cons_pep, ← List.cons_append, ← List.map_cons,
        ← intRange_cons hse]
      have h3 : (1:ℤ) + 2 ≤ s := by omega
      split_ifs with htail
      · rw [gaps_pages_ellTail 2 _ e t (intRange_getLast hse)]
        simp only [Bool.and_eq_true, decide_eq_true_eq]
        exact ⟨by omega, by omega⟩
      · rw [gaps_pages_pageTail]
        simp only [Bool.and_true, decide_eq_true_eq]
        omega
    · have htail : ¬ (e < t - 1) := by omega
      have h3 : (1:ℤ) + 2 ≤ t := by omega
      rw [if_pos hlead, if_neg htail, intRange_eq_nil hse]
      simp only [List.map_nil, List.append_nil, List.cons_append,
        List.nil_append]
      rw [gaps_cons_pep]
      simp only [Bool.and_eq_true, decide_eq_true_eq]
      exact ⟨by omega, rfl⟩
  · rw [if_neg hlead, List.singleton_append, ← List.map_cons]
    split_ifs with htail
    · rcases le_or_lt s e with hse | hse
      · have hlast : ((1:ℤ) :: intRange s e).getLast? = some e := by
          have h0 := intRange_getLast hse
          rw [intRange_cons hse] at h0 ⊢
          rw [List.getLast?_cons_cons]
          exact h0
        rw [gaps_pages_ellTail 2 _ e t hlast]
        simp only [decide_eq_true_eq]
        omega
      · rw [intRange_eq_nil hse]
        rw [gaps_pages_ellTail 2 [1] 1 t rfl]
        simp only [decide_eq_true_eq]
        omega
    · rw [gaps_pages_pageTail]

/-! ### Lemmas about `relative_to` and `compute_base_url` -/

theorem relative_to_nil (p : List String) :
    BuildSite.relative_to p [] = some p := by
  cases p <;> rfl

theorem relative_to_append : ∀ (root rest : List String),
    BuildSite.relative_to (root ++ rest) root = some rest
  | [], rest => by rw [List.nil_append, relative_to_nil]
  | r :: root, rest => by
    simp only [List.cons_append, BuildSite.relative_to, if_pos]
    exact relative_to_append root rest

theorem relative_to_some : ∀ (root path rel : List String),
    BuildSite.relative_to path root = some rel → path = root ++ rel
  | [], path, rel => by
    intro h
    rw [relative_to_nil, Option.some.injEq] at h
    rw [h, List.nil_append]
  | r :: rs, [], rel => by
    intro h
    simp only [BuildSite.relative_to] at h
    exact Option.noConfusion h
  | r :: rs, x :: p, rel => by
    intro h
    simp only [BuildSite.relative_to] at h
    split_ifs at h with hx
    subst hx
    rw [List.cons_append]
    exact congrArg (List.cons x) (relative_to_some rs p rel h)

theorem compute_base_url_some (root path rel : List String)
    (h : BuildSite.relative_to path root = some rel) :
    BuildSite.compute_base_url root path =
      (if ((rel.length : ℤ) - 1) > 0 then
        String.join (List.replicate ((rel.length : ℤ) - 1).toNat "../")
       else "") := by
  unfold BuildSite.compute_base_url
  rw [h]

theorem compute_base_url_none (root path : List String)
    (h : BuildSite.relative_to path root = none) :
    BuildSite.compute_base_url root path = "" := by
  unfold BuildSite.compute_base_url
  rw [h]

/-! ### Claim theorems -/

/-- C1: for every `total ≥ 2`, `1 ≤ current ≤ total` and `delta ≥ 0`,
`get_pagination_range` from build_site.py returns exactly the lead anchor,
window and trailing anchor described by the claim (transcribed as
`planSpecC1`). -/
theorem plan_matches_window_anchor_description (current total delta : ℤ)
    (ht : 2 ≤ total) (hc1 : 1 ≤ current) (hct : current ≤ total)
    (hd : 0 ≤ delta) :
    BuildSite.get_pagination_range current total delta =
      planSpecC1 current total delta := by
  rw [buildSite_shape current total delta ht]
  unfold planSpecC1
  congr 1
  split_ifs with h1 h2 <;> first | rfl | (exfalso; omega)

theorem plan_matches_window_anchor_description_witness :
    ((2:ℤ) ≤ 50 ∧ (1:ℤ) ≤ 25 ∧ (25:ℤ) ≤ 50 ∧ (0:ℤ) ≤ 2) ∧
      BuildSite.get_pagination_range 25 50 2 = planSpecC1 25 50 2 :=
  ⟨by decide,
    plan_matches_window_anchor_description 25 50 2 (by decide) (by decide)
      (by decide) (by decide)⟩

/-- C2 (counterexample): `plan(5, 10, 3)` does not return
`[1, 2, 3, 4, 5, 6, 7, 8, 9, 10]`, in either implementation. -/
theorem plan_5_10_3_not_full_range :
    BuildSite.get_pagination_range 5 10 3 ≠
      [Marker.page 1, Marker.page 2, Marker.page 3, Marker.page 4,
       Marker.page 5, Marker.page 6, Marker.page 7, Marker.page 8,
       Marker.page 9, Marker.page 10] ∧
    Utils.get_pagination_range 5 10 3 ≠
      [Marker.page 1, Marker.page 2, Marker.page 3, Marker.page 4,
       Marker.page 5, Marker.page 6, Marker.page 7, Marker.page 8,
       Marker.page 9, Marker.page 10] := by
  decide

/-- C2 (amended): `plan(5, 10, 3)` returns `[1, 2, 3, 4, 5, 6, 7, 8]`
followed by an ellipsis standing for the single elided page 9 and then `10`,
in both implementations. -/
theorem plan_5_10_3_value :
    BuildSite.get_pagination_range 5 10 3 =
      [Marker.page 1, Marker.page 2, Marker.page 3, Marker.page 4,
       Marker.page 5, Marker.page 6, Marker.page 7, Marker.page 8,
       Marker.ellipsis, Marker.page 10] ∧
    Utils.get_pagination_range 5 10 3 =
      [Marker.page 1, Marker.page 2, Marker.page 3, Marker.page 4,
       Marker.page 5, Marker.page 6, Marker.page 7, Marker.page 8,
       Marker.ellipsis, Marker.page 10] := by
  decide

/-- C3 (counterexample): the claimed boundary policy fails at the valid
input `current = 5`, `total = 10`, `delta = 3`: the trailing ellipsis there
stands for the single elided page 9, i.e. it is redundant with a single page
number. -/
theorem boundary_policy_fails_at_5_10_3 :
    boundaryPolicyB (BuildSite.get_pagination_range 5 10 3) = false := by
  decide

/-- C3 (amended): for every valid input the numeric entries are
non-decreasing, no two ellipses are adjacent, and every ellipsis stands for a
non-empty gap (at least one elided page) — but the gap may consist of a
single page. -/
theorem plan_boundary_policy_nonempty_gaps (c t d : ℤ) (ht : 1 ≤ t)
    (hc1 : 1 ≤ c) (hct : c ≤ t) (hd : 0 ≤ d) :
    nonDecrB (pagesOf (BuildSite.get_pagination_range c t d)) = true ∧
    noAdjEllipsisB (BuildSite.get_pagination_range c t d) = true ∧
    gapsAtLeastB 2 (BuildSite.get_pagination_range c t d) = true := by
  rcases le_or_lt t 1 with h1 | h1
  · have hout : BuildSite.get_pagination_range c t d = [Marker.page 1] := by
      unfold BuildSite.get_pagination_range
      rw [if_pos h1]
    rw [hout]
    exact ⟨rfl, rfl, rfl⟩
  · have h2 : 2 ≤ t := h1
    refine ⟨?_, noAdjE_build c t d h2 hc1 hct hd,
      gaps2_build c t d h2 hc1 hct hd⟩
    exact (nonDecrB_iff _).mpr
      ((chain'_lt_pages_build c t d h2 hc1 hct hd).imp
        (fun a b h => le_of_lt h))

theorem plan_boundary_policy_nonempty_gaps_witness :
    ((1:ℤ) ≤ 10 ∧ (1:ℤ) ≤ 5 ∧ (5:ℤ) ≤ 10 ∧ (0:ℤ) ≤ 3) ∧
      (nonDecrB (pagesOf (BuildSite.get_pagination_range 5 10 3)) = true ∧
       noAdjEllipsisB (BuildSite.get_pagination_range 5 10 3) = true ∧
       gapsAtLeastB 2 (BuildSite.get_pagination_range 5 10 3) = true) :=
  ⟨by decide,
    plan_boundary_policy_nonempty_gaps 5 10 3 (by decide) (by decide)
      (by decide) (by decide)⟩

/-- C4: for every `total ≥ 2` and valid `current`, `delta`, the output starts
with page 1 and ends with page `total`. -/
theorem plan_starts_with_one_ends_with_total (c t d : ℤ) (ht : 2 ≤ t)
    (hc1 : 1 ≤ c) (hct : c ≤ t) (hd : 0 ≤ d) :
    (BuildSite.get_pagination_range c t d).head? = some (Marker.page 1) ∧
    (BuildSite.get_pagination_range c t d).getLast? = some (Marker.page t) := by
  have hc : ∀ (l : List Marker) (a b : Marker),
      (l ++ [a, b]).getLast? = some b := by
    intro l a b
    rw [show l ++ [a, b] = (l ++ [a]) ++ [b] by simp]
    exact List.getLast?_concat _
  rw [buildSite_shape c t d ht]
  constructor
  · split_ifs <;> rfl
  · split_ifs <;> first | exact hc _ _ _ | exact List.getLast?_concat _

theorem plan_starts_with_one_ends_with_total_witness :
    ((2:ℤ) ≤ 9 ∧ (1:ℤ) ≤ 3 ∧ (3:ℤ) ≤ 9 ∧ (0:ℤ) ≤ 2) ∧
      ((BuildSite.get_pagination_range 3 9 2).head? = some (Marker.page 1) ∧
       (BuildSite.get_pagination_range 3 9 2).getLast? =
         some (Marker.page 9)) :=
  ⟨by decide,
    plan_starts_with_one_ends_with_total 3 9 2 (by decide) (by decide)
      (by decide) (by decide)⟩

/-- C7: for every `total ≥ 2`, `delta ≥ 0` and `2 ≤ current ≤ total - 1`,
the output contains the page number `current`. -/
theorem plan_contains_current (c t d : ℤ) (ht : 2 ≤ t) (hc2 : 2 ≤ c)
    (hct : c ≤ t - 1) (hd : 0 ≤ d) :
    Marker.page c ∈ BuildSite.get_pagination_range c t d := by
  rw [buildSite_shape c t d ht]
  refine List.mem_append.mpr (Or.inl (List.mem_append.mpr (Or.inr ?_)))
  exact List.mem_map.mpr ⟨c, mem_intRange.mpr ⟨by omega, by omega⟩, rfl⟩

theorem plan_contains_current_witness :
    ((2:ℤ) ≤ 40 ∧ (2:ℤ) ≤ 17 ∧ (17:ℤ) ≤ 40 - 1 ∧ (0:ℤ) ≤ 3) ∧
      Marker.page 17 ∈ BuildSite.get_pagination_range 17 40 3 :=
  ⟨by decide,
    plan_contains_current 17 40 3 (by decide) (by decide) (by decide)
      (by decide)⟩

/-- C8: for `total = 1` (the only case with `1 ≤ total ≤ 1`), any valid
`current` and any `delta ≥ 0`, the output is exactly `[1]`. -/
theorem plan_total_le_one_singleton (c t d : ℤ) (ht1 : 1 ≤ t) (ht : t ≤ 1)
    (hc1 : 1 ≤ c) (hct : c ≤ t) (hd : 0 ≤ d) :
    BuildSite.get_pagination_range c t d = [Marker.page 1] := by
  unfold BuildSite.get_pagination_range
  rw [if_pos ht]

theorem plan_total_le_one_singleton_witness :
    ((1:ℤ) ≤ 1 ∧ (1:ℤ) ≤ 1 ∧ (1:ℤ) ≤ 1 ∧ (1:ℤ) ≤ 1 ∧ (0:ℤ) ≤ 5) ∧
      BuildSite.get_pagination_range 1 1 5 = [Marker.page 1] :=
  ⟨by decide,
    plan_total_le_one_singleton 1 1 5 (by decide) (by decide) (by decide)
      (by decide) (by decide)⟩

/-- C5: for every output file under the site root at directory depth `d`
(`d` directories between the file's parent directory and the root),
`compute_base_url` returns `"../"` repeated exactly `d` times, with no
separator duplication, and the empty string at depth 0. -/
theorem base_path_repeats_parent_marker (root dirs : List String)
    (fname : String) :
    BuildSite.compute_base_url root (root ++ (dirs ++ [fname])) =
      String.join (List.replicate dirs.length "../") := by
  rw [compute_base_url_some root _ (dirs ++ [fname])
    (relative_to_append root (dirs ++ [fname]))]
  have hlen : (((dirs ++ [fname]).length : ℤ) - 1) = (dirs.length : ℤ) := by
    simp [List.length_append]
  rw [hlen]
  rcases Nat.eq_zero_or_pos dirs.length with h0 | hpos
  · rw [h0]
    rfl
  · have hgt : ((dirs.length : ℤ)) > 0 := by omega
    rw [if_pos hgt]
    have htn : ((dirs.length : ℤ)).toNat = dirs.length := by omega
    rw [htn]

/-- C6: for every output path that is not contained under the site root,
`compute_base_url` silently returns the empty string instead of raising. -/
theorem base_path_outside_root_empty (root path : List String)
    (h : ∀ rel, path ≠ root ++ rel) :
    BuildSite.compute_base_url root path = "" := by
  have hn : BuildSite.relative_to path root = none := by
    cases hrel : BuildSite.relative_to path root with
    | none => rfl
    | some rel => exact absurd (relative_to_some root path rel hrel) (h rel)
  exact compute_base_url_none root path hn

theorem base_path_outside_root_empty_witness :
    (∀ rel, ["other", "a.html"] ≠ ["out"] ++ rel) ∧
      BuildSite.compute_base_url ["out"] ["other", "a.html"] = "" := by
  have h : ∀ rel, ["other", "a.html"] ≠ ["out"] ++ rel := by
    intro rel hcontra
    have h2 : "other" = "out" := by injection hcontra
    exact absurd h2 (by simp)
  exact ⟨h, base_path_outside_root_empty ["out"] ["other", "a.html"] h⟩

/-- C9: the two implementations of `get_pagination_range` (utils.py and
build_site.py) return identical sequences for every valid input. -/
theorem pagination_impls_agree (c t d : ℤ) (ht : 1 ≤ t) (hc1 : 1 ≤ c)
    (hct : c ≤ t) (hd : 0 ≤ d) :
    Utils.get_pagination_range c t d = BuildSite.get_pagination_range c t d := by
  rcases le_or_lt t 1 with h1 | h1
  · have ht1 : t = 1 := le_antisymm h1 ht
    subst ht1
    have hc : c = 1 := le_antisymm hct hc1
    subst hc
    have hb : BuildSite.get_pagination_range 1 1 d = [Marker.page 1] := by
      unfold BuildSite.get_pagination_range
      rw [if_pos (by omega : (1:ℤ) ≤ 1)]
    rw [hb]
    have e1 : ¬ ((1:ℤ) - d > 2) := by omega
    have e2 : ¬ ((1:ℤ) + d < 1 - 1) := by omega
    have e3 : ¬ ((1:ℤ) < 1) := by omega
    simp only [Utils.get_pagination_range, e1, e2, e3, if_false]
    rw [intRange_cons (le_refl 1), intRange_eq_nil (by omega : (1:ℤ) < 1 + 1)]
    rfl
  · have h2 : 2 ≤ t := h1
    rw [utils_shape c t d h2 hc1 hct hd, buildSite_shape c t d h2]

theorem pagination_impls_agree_witness :
    ((1:ℤ) ≤ 10 ∧ (1:ℤ) ≤ 5 ∧ (5:ℤ) ≤ 10 ∧ (0:ℤ) ≤ 3) ∧
      Utils.get_pagination_range 5 10 3 =
        BuildSite.get_pagination_range 5 10 3 :=
  ⟨by decide,
    pagination_impls_agree 5 10 3 (by decide) (by decide) (by decide)
      (by decide)⟩

/-- C10: for every valid input, every entry of the output is an ellipsis or a
page number in `[1, total]`, the numeric entries are strictly increasing, and
no page number occurs twice. -/
theorem plan_entries_wellformed (c t d : ℤ) (ht : 1 ≤ t) (hc1 : 1 ≤ c)
    (hct : c ≤ t) (hd : 0 ≤ d) :
    inBoundsB t (BuildSite.get_pagination_range c t d) = true ∧
    strictIncrB (pagesOf (BuildSite.get_pagination_range c t d)) = true ∧
    (pagesOf (BuildSite.get_pagination_range c t d)).Nodup := by
  rcases le_or_lt t 1 with h1 | h1
  · have hout : BuildSite.get_pagination_range c t d = [Marker.page 1] := by
      unfold BuildSite.get_pagination_range
      rw [if_pos h1]
    rw [hout]
    refine ⟨?_, rfl, by simp [pagesOf]⟩
    have : inBoundsB t [Marker.page 1] = decide ((1:ℤ) ≤ 1 ∧ (1:ℤ) ≤ t) := by
      simp [inBoundsB]
    rw [this, decide_eq_true_eq]
    omega
  · have h2 : 2 ≤ t := h1
    have hch := chain'_lt_pages_build c t d h2 hc1 hct hd
    refine ⟨?_, (strictIncrB_iff _).mpr hch, ?_⟩
    · rw [buildSite_shape c t d h2, inBoundsB, List.all_eq_true]
      intro m hm
      rcases List.mem_append.mp hm with hm' | hmtail
      · rcases List.mem_append.mp hm' with hmlead | hmmid
        · split_ifs at hmlead with hl <;>
            simp only [List.mem_cons, List.mem_singleton,
              List.not_mem_nil, or_false] at hmlead
          · rcases hmlead with rfl | rfl
            · show decide ((1:ℤ) ≤ 1 ∧ (1:ℤ) ≤ t) = true
              rw [decide_eq_true_eq]
              omega
            · rfl
          · subst hmlead
            show decide ((1:ℤ) ≤ 1 ∧ (1:ℤ) ≤ t) = true
            rw [decide_eq_true_eq]
            omega
        · rcases List.mem_map.mp hmmid with ⟨x, hx, rfl⟩
          have hb := mem_intRange.mp hx
          show decide ((1:ℤ) ≤ x ∧ x ≤ t) = true
          rw [decide_eq_true_eq]
          omega
      · split_ifs at hmtail with htl <;>
          simp only [List.mem_cons, List.mem_singleton,
            List.not_mem_nil, or_false] at hmtail
        · rcases hmtail with rfl | rfl
          · rfl
          · show decide ((1:ℤ) ≤ t ∧ t ≤ t) = true
            rw [decide_eq_true_eq]
            omega
        · subst hmtail
          show decide ((1:ℤ) ≤ t ∧ t ≤ t) = true
          rw [decide_eq_true_eq]
          omega
    · have hpw : (pagesOf (BuildSite.get_pagination_range c t d)).Pairwise
          (· < ·) := List.chain'_iff_pairwise.mp hch
      exact hpw.imp (fun h => ne_of_lt h)

theorem plan_entries_wellformed_witness :
    ((1:ℤ) ≤ 20 ∧ (1:ℤ) ≤ 7 ∧ (7:ℤ) ≤ 20 ∧ (0:ℤ) ≤ 3) ∧
      (inBoundsB 20 (BuildSite.get_pagination_range 7 20 3) = true ∧
       strictIncrB (pagesOf (BuildSite.get_pagination_range 7 20 3)) = true ∧
       (pagesOf (BuildSite.get_pagination_range 7 20 3)).Nodup) :=
  ⟨by decide,
    plan_entries_wellformed 7 20 3 (by decide) (by decide) (by decide)
      (by decide)⟩
